import Mathlib

/-!
Verification of the dracula in-memory expirable key counter.

Byte buffers are modelled as `List Nat` (each element a byte value), machine
integers as `Nat` assembled little-endian from bytes exactly where the Go code
converts, and unix timestamps as `Int`.  Every definition in the `Dracula`
namespace is a direct transcription of the corresponding Go function; wall
clock reads (`time.Now().Unix()`) become explicit `now : Int` arguments.
-/

namespace Dracula

/-! ### Wire protocol constants (src/protocol/protocol.go) -/

def PacketSize : Nat := 1500
def NamespaceSize : Nat := 64
def DataValueSize : Nat := 1419

def CmdCount : Nat := 67          -- 'C'
def CmdPut : Nat := 80            -- 'P'
def CmdPutReplicate : Nat := 82   -- 'R'
def CmdCountNamespace : Nat := 78 -- 'N'
def CmdCountServer : Nat := 83    -- 'S'
def CmdTCPOnlyKeys : Nat := 75    -- 'K'
def ResError : Nat := 69          -- 'E'

def spaceByte : Nat := 32
def spaceIndex1 : Nat := 1
def spaceIndex2 : Nat := 10
def spaceIndex3 : Nat := 15
def spaceIndex4 : Nat := 80

/-- The distinct error values of the protocol package. -/
inductive ProtoErr where
  | invalidPacketSize
  | invalidCommandByte
  | protocolSpace1
  | protocolSpace2
  | protocolSpace3
  | badHash
  | badOutputSize
  deriving DecidableEq, Repr

/-- The message carried by each error value (`errors.New` texts; the source
gives `ErrProtocolSpace2` the same text as `ErrProtocolSpace1`). -/
def ProtoErr.text : ProtoErr → String
  | .invalidPacketSize => "bad packet: size must be 1500 bytes"
  | .invalidCommandByte => "bad packet: invalid command byte"
  | .protocolSpace1 => "bad packet: expected space 1"
  | .protocolSpace2 => "bad packet: expected space 1"
  | .protocolSpace3 => "bad packet: expected space 3"
  | .badHash => "auth failed: packet hash invalid"
  | .badOutputSize => "wrong data size during packet construction"

/-- `"\n.\n"` as bytes. -/
def StopSymbol : List Nat := [10, 46, 10]

def IsRequestCmd (c : Nat) : Bool :=
  c == CmdCount || c == CmdPut || c == CmdCountNamespace || c == CmdCountServer
    || c == CmdPutReplicate

def IsResponseCmd (c : Nat) : Bool :=
  c == ResError || IsRequestCmd c

/-- The Packet struct.  The Go field `Namespace` is spelled `nspace` because
`namespace` is a Lean keyword; the transport handle `RequestClient` is not part
of the data model. -/
structure Packet where
  command : Nat
  hashBytes : List Nat
  hash : Nat
  messageIDBytes : List Nat
  messageID : Nat
  nspace : List Nat
  dataValue : List Nat
  deriving DecidableEq, Repr

/-- `binary.LittleEndian.Uint32` reads the first four bytes. -/
def Uint32FromBytes (bs : List Nat) : Nat :=
  bs.getD 0 0 + 256 * bs.getD 1 0 + 256 ^ 2 * bs.getD 2 0 + 256 ^ 3 * bs.getD 3 0

def Uint32ToBytes (u : Nat) : List Nat :=
  [u % 256, u / 256 % 256, u / 256 ^ 2 % 256, u / 256 ^ 3 % 256]

/-- `binary.LittleEndian.Uint64` reads the first eight bytes. -/
def Uint64FromBytes (bs : List Nat) : Nat :=
  bs.getD 0 0 + 256 * bs.getD 1 0 + 256 ^ 2 * bs.getD 2 0 + 256 ^ 3 * bs.getD 3 0
    + 256 ^ 4 * bs.getD 4 0 + 256 ^ 5 * bs.getD 5 0 + 256 ^ 6 * bs.getD 6 0
    + 256 ^ 7 * bs.getD 7 0

/-- padRight adds the space byte until the buffer reaches the desired size; a
buffer already at least that long is returned unchanged. -/
def padRight (l : List Nat) (finalSize : Nat) : List Nat :=
  if finalSize ≤ l.length then l
  else l ++ List.replicate (finalSize - l.length) spaceByte

/-! ### The xxhash dependency

`HashPacket` constructs a fresh `xxhash.New64()` hasher, never writes to it,
and calls `Sum(bytesToHash)`.  Per the `hash.Hash` contract implemented by
`github.com/OneOfOne/xxhash`, `Sum(in)` appends the big-endian digest of the
data written so far (here: none) to `in` and returns the result.  So the only
digest value ever produced is XXH64 of the empty input at seed 0, computed
below by the XXH64 short-input path (accumulator `seed + prime5 + len` with
`len = 0`, then the avalanche finalisation). -/

def xxh64Prime2 : Nat := 14029467366897019727
def xxh64Prime3 : Nat := 1609587929392839161
def xxh64Prime5 : Nat := 2870177450012600261

def xxh64Avalanche (h0 : Nat) : Nat :=
  let M := 2 ^ 64
  let h1 := (h0 % M) ^^^ ((h0 % M) >>> 33)
  let h2 := (h1 * xxh64Prime2) % M
  let h3 := h2 ^^^ (h2 >>> 29)
  let h4 := (h3 * xxh64Prime3) % M
  (h4 ^^^ (h4 >>> 32)) % M

def xxh64EmptyDigest : Nat := xxh64Avalanche xxh64Prime5

/-- `Sum` appends the digest most-significant byte first. -/
def xxh64EmptyDigestBytes : List Nat :=
  [xxh64EmptyDigest / 256 ^ 7 % 256, xxh64EmptyDigest / 256 ^ 6 % 256,
   xxh64EmptyDigest / 256 ^ 5 % 256, xxh64EmptyDigest / 256 ^ 4 % 256,
   xxh64EmptyDigest / 256 ^ 3 % 256, xxh64EmptyDigest / 256 ^ 2 % 256,
   xxh64EmptyDigest / 256 % 256, xxh64EmptyDigest % 256]

/-- HashPacket builds `preSharedKey ++ MessageIDBytes ++ Namespace ++ DataValue`
and returns the unwritten hasher's `Sum` of it: that same buffer with the
digest of the empty input appended. -/
def HashPacket (p : Packet) (preSharedKey : List Nat) : List Nat :=
  preSharedKey ++ p.messageIDBytes ++ p.nspace ++ p.dataValue ++ xxh64EmptyDigestBytes

/-- SetHash stores `HashPacket` output on the packet and the little-endian
64-bit read of its first eight bytes. -/
def Packet.SetHash (p : Packet) (preSharedKey : List Nat) : Packet :=
  { p with hashBytes := HashPacket p preSharedKey,
           hash := Uint64FromBytes (HashPacket p preSharedKey) }

/-- Validate recomputes the tag and compares the 64-bit values. -/
def Packet.Validate (p : Packet) (preSharedKey : List Nat) : Option ProtoErr :=
  if p.hash = Uint64FromBytes (HashPacket p preSharedKey) then none
  else some .badHash

def NewPacketFromParts (command : Nat)
    (messageID nspace dataValue preSharedKey : List Nat) : Packet :=
  Packet.SetHash
    { command := command
      hashBytes := []
      hash := 0
      messageIDBytes := messageID
      messageID := Uint32FromBytes messageID
      nspace := padRight nspace NamespaceSize
      dataValue := padRight dataValue DataValueSize } preSharedKey

/-- Go slice `buf[a:b]`. -/
def listSlice (l : List Nat) (a b : Nat) : List Nat := (l.drop a).take (b - a)

/-- The partially populated packet ParsePacket assembles from any buffer of at
least 82 bytes: the command byte, the hash slice `buf[2:10]`, the message id
slice `buf[11:15]`, the namespace slice `buf[16:80]` and the right-padded data
slice `buf[81:min(len,1500)]`. -/
def parsedPacket (buf : List Nat) : Packet :=
  { command := buf.getD 0 0
    hashBytes := listSlice buf (spaceIndex1 + 1) spaceIndex2
    hash := Uint64FromBytes (listSlice buf (spaceIndex1 + 1) spaceIndex2)
    messageIDBytes := listSlice buf (spaceIndex2 + 1) spaceIndex3
    messageID := Uint32FromBytes (listSlice buf (spaceIndex2 + 1) spaceIndex3)
    nspace := listSlice buf (spaceIndex3 + 1) spaceIndex4
    dataValue := padRight (listSlice buf (spaceIndex4 + 1) (min buf.length PacketSize))
      DataValueSize }

/-- ParsePacket.  Mirrors the source exactly: buffers shorter than
`spaceIndex4 + 2 = 82` yield a nil packet; otherwise a partially populated
packet is always returned, together with the first failing check's error.  The
source's final delimiter check at offset 80 returns `ErrProtocolSpace3`. -/
def ParsePacket (buf : List Nat) : Option Packet × Option ProtoErr :=
  if buf.length < spaceIndex4 + 2 then (none, some .invalidPacketSize)
  else if buf.length ≠ PacketSize then (some (parsedPacket buf), some .invalidPacketSize)
  else if ¬(IsRequestCmd (buf.getD 0 0) || IsResponseCmd (buf.getD 0 0)) then
    (some (parsedPacket buf), some .invalidCommandByte)
  else if buf.getD spaceIndex1 0 ≠ spaceByte then
    (some (parsedPacket buf), some .protocolSpace1)
  else if buf.getD spaceIndex2 0 ≠ spaceByte then
    (some (parsedPacket buf), some .protocolSpace2)
  else if buf.getD spaceIndex3 0 ≠ spaceByte then
    (some (parsedPacket buf), some .protocolSpace3)
  else if buf.getD spaceIndex4 0 ≠ spaceByte then
    (some (parsedPacket buf), some .protocolSpace3)
  else (some (parsedPacket buf), none)

/-- The frame assembled by the private `bytes()` method: command, delimiter
spaces, the first 8 hash bytes, the first 4 message id bytes, and the padded
namespace and data value. -/
def Packet.bytesRaw (p : Packet) : List Nat :=
  p.command :: spaceByte ::
    (p.hashBytes.take 8 ++ spaceByte ::
      (p.messageIDBytes.take 4 ++ spaceByte ::
        (padRight p.nspace NamespaceSize ++ spaceByte ::
          padRight p.dataValue DataValueSize)))

/-- `bytes()` panics when fewer than 8 hash bytes or 4 message id bytes are
present; `none` models that panic. -/
def Packet.bytesGo (p : Packet) : Option (List Nat) :=
  if p.hashBytes.length < 8 ∨ p.messageIDBytes.length < 4 then none
  else some p.bytesRaw

/-- `Bytes()` (UDP serialisation): returns the Go pair `(b, err)`; the buffer
is nil exactly when the assembled frame is not 1500 bytes.  The outer `Option`
models the `bytes()` panic. -/
def Packet.Bytes (p : Packet) : Option (Option (List Nat) × Option ProtoErr) :=
  p.bytesGo.map fun out =>
    if out.length = PacketSize then (some out, none) else (none, some .badOutputSize)

/-! ### Association-list maps

Both the namespace hashmap and the per-namespace red-black tree are modelled
as association lists in iteration order.  Neither Go container ever holds a
duplicate key; `assocPut` rewrites the first occurrence (or appends) and
`assocRemove` drops every occurrence, so the lookup laws below hold without a
no-duplicates side condition. -/

def assocGet {κ α : Type} [DecidableEq κ] : List (κ × α) → κ → Option α
  | [], _ => none
  | (k', v) :: rest, k => if k' = k then some v else assocGet rest k

def assocPut {κ α : Type} [DecidableEq κ] : List (κ × α) → κ → α → List (κ × α)
  | [], k, v => [(k, v)]
  | (k', w) :: rest, k, v =>
    if k' = k then (k, v) :: rest else (k', w) :: assocPut rest k v

def assocRemove {κ α : Type} [DecidableEq κ] (t : List (κ × α)) (k : κ) : List (κ × α) :=
  t.filter (fun e => decide (e.1 ≠ k))

/-! ### Expiring tree (src/store/tree/tree.go) -/

/-- The per-namespace expiring tree: a default TTL and the ordered map from
entry key to its list of expiry timestamps. -/
structure Tree where
  defaultExpireAfterSecs : Int
  tree : List (String × List Int)
  deriving DecidableEq, Repr

def NewTree (expireAfterSecs : Int) : Tree :=
  { defaultExpireAfterSecs := expireAfterSecs, tree := [] }

/-- removeExpired keeps exactly the entries strictly beyond the current time. -/
def removeExpired (datesSecs : List Int) (currentTime : Int) : List Int :=
  if datesSecs.length = 0 then datesSecs
  else datesSecs.filter (fun removeAt => decide (currentTime < removeAt))

/-- getAndCleanupUnsafe: absent gives `none`; a stored empty list is removed
from the tree and reported as `none`; otherwise the stored list is returned. -/
def getAndCleanupUnsafe (t : List (String × List Int)) (entryKey : String) :
    Option (List Int) × List (String × List Int) :=
  match assocGet t entryKey with
  | none => (none, t)
  | some dates =>
    if dates.length = 0 then (none, assocRemove t entryKey) else (some dates, t)

/-- Tree.Count returns the number of entries at `entryKey` and the tree after
its cleanup side effects. -/
def Tree.Count (n : Tree) (entryKey : String) (now : Int) : Nat × Tree :=
  let r := getAndCleanupUnsafe n.tree entryKey
  match r.1 with
  | none => (0, { n with tree := r.2 })
  | some datesSecs =>
    if datesSecs.length = 0 then (0, { n with tree := assocRemove r.2 entryKey })
    else
      let swept := removeExpired datesSecs now
      (swept.length, { n with tree := assocPut r.2 entryKey swept })

/-- Tree.Put drops expired entries of the key and appends `now + TTL`. -/
def Tree.Put (n : Tree) (entryKey : String) (now : Int) : Tree :=
  let r := getAndCleanupUnsafe n.tree entryKey
  let datesSecs := r.1.getD []
  let swept := removeExpired datesSecs now
  { n with tree := assocPut r.2 entryKey (swept ++ [now + n.defaultExpireAfterSecs]) }

/-- The loop body of Tree.Keys over the snapshot of keys: count every key,
sum all counts, and keep the keys whose count is nonzero. -/
def keysFold (now : Int) : Tree → List String → List String × Nat × Tree
  | n, [] => ([], 0, n)
  | n, k :: ks =>
    let r := n.Count k now
    let rest := keysFold now r.2 ks
    (if r.1 = 0 then rest.1 else k :: rest.1, r.1 + rest.2.1, rest.2.2)

def Tree.Keys (n : Tree) (now : Int) : List String × Nat × Tree :=
  keysFold now n (n.tree.map Prod.fst)

/-- The iteration of Tree.KeyMatch: keys are counted only when the compiled
pattern matches, and kept when the count is positive. -/
def matchFold (now : Int) (re : String → Bool) : Tree → List String → List String × Tree
  | n, [] => ([], n)
  | n, k :: ks =>
    if re k then
      let r := n.Count k now
      let rest := matchFold now re r.2 ks
      (if 0 < r.1 then k :: rest.1 else rest.1, rest.2)
    else matchFold now re n ks

/-- The pattern rewrite of Tree.KeyMatch: every `*` becomes `(^|$|.+)`. -/
def goGlobToRegex (keyPattern : String) : String :=
  keyPattern.replace "*" "(^|$|.+)"

/-- Tree.KeyMatch, parameterised by the Go regexp engine: `compile` stands for
`regexp.Compile` (an external library), returning either the compile error's
message or a match predicate (`MatchString`, unanchored). -/
def Tree.KeyMatch (compile : String → Except String (String → Bool))
    (n : Tree) (keyPattern : String) (now : Int) : List String × Tree :=
  match compile (goGlobToRegex keyPattern) with
  | .error msg => ([msg], n)
  | .ok re => matchFold now re n (n.tree.map Prod.fst)

/-- Pure observer: how many unexpired entries a list holds at `now`. -/
def liveList (dates : List Int) (now : Int) : Nat :=
  (dates.filter (fun d => decide (now < d))).length

/-- Pure observer: the live count of a key, with no side effects. -/
def Tree.live (n : Tree) (k : String) (now : Int) : Nat :=
  match assocGet n.tree k with
  | none => 0
  | some dates => liveList dates now

/-! ### Store (src/store/store.go) -/

/-- Denominator of how many namespaces to garbage collect max on a run. -/
def maxNamespacesDenom : Nat := 2

structure Store where
  expireAfterSecs : Int
  namespaces : List (String × Tree)
  cleanupServiceEnabled : Bool
  deriving DecidableEq, Repr

def NewStore (expireAfterSecs : Int) : Store :=
  { expireAfterSecs := expireAfterSecs, namespaces := [], cleanupServiceEnabled := true }

def Store.Put (s : Store) (ns entryKey : String) (now : Int) : Store :=
  match assocGet s.namespaces ns with
  | none =>
    let subtree := (NewTree s.expireAfterSecs).Put entryKey now
    { s with namespaces := assocPut s.namespaces ns subtree }
  | some subtree =>
    { s with namespaces := assocPut s.namespaces ns (subtree.Put entryKey now) }

def Store.Count (s : Store) (ns entryKey : String) (now : Int) : Nat × Store :=
  match assocGet s.namespaces ns with
  | none => (0, s)
  | some subtree =>
    let r := subtree.Count entryKey now
    (r.1, { s with namespaces := assocPut s.namespaces ns r.2 })

def Store.CountEntries (s : Store) (ns : String) (now : Int) : Nat × Store :=
  match assocGet s.namespaces ns with
  | none => (0, s)
  | some subtree =>
    let r := subtree.Keys now
    (r.2.1, { s with namespaces := assocPut s.namespaces ns r.2.2 })

def Store.KeyMatch (compile : String → Except String (String → Bool))
    (s : Store) (ns keyPattern : String) (now : Int) : List String × Store :=
  match assocGet s.namespaces ns with
  | none => ([], s)
  | some subtree =>
    let r := Tree.KeyMatch compile subtree keyPattern now
    (r.1, { s with namespaces := assocPut s.namespaces ns r.2 })

def countServerFold (now : Int) : Store → List String → Nat × Store
  | s, [] => (0, s)
  | s, ns :: rest =>
    let r := s.CountEntries ns now
    let t := countServerFold now r.2 rest
    (r.1 + t.1, t.2)

def Store.CountServerEntries (s : Store) (now : Int) : Nat × Store :=
  countServerFold now s (s.namespaces.map Prod.fst)

/-- The loop of runCleanup over the selected namespaces: sweep each selected
tree with Keys and remove the namespace when no valid key remains. -/
def cleanupFold (now : Int) : Store → List String → Store
  | s, [] => s
  | s, ns :: rest =>
    match assocGet s.namespaces ns with
    | none => cleanupFold now s rest
    | some subtree =>
      let r := subtree.Keys now
      let s' :=
        if r.1.length = 0 then { s with namespaces := assocRemove s.namespaces ns }
        else { s with namespaces := assocPut s.namespaces ns r.2.2 }
      cleanupFold now s' rest

/-- One run of the background cleanup: snapshot the namespace keys, select the
first `⌊N / maxNamespacesDenom⌋` of them, sweep those subtrees. -/
def Store.runCleanup (s : Store) (now : Int) : Store :=
  if ¬s.cleanupServiceEnabled then s
  else
    cleanupFold now s ((s.namespaces.map Prod.fst).take
      ((s.namespaces.map Prod.fst).length / maxNamespacesDenom))

/-- Pure observer: the live count of a (namespace, entry key) pair. -/
def Store.live (s : Store) (ns k : String) (now : Int) : Nat :=
  match assocGet s.namespaces ns with
  | none => 0
  | some t => t.live k now

/-! ### Waiting-callback cache (waitingmessage.ResponseCache) -/

inductive CacheErr where
  | messageIDExists
  | messageExpired
  | noMessage
  deriving DecidableEq, Repr

/-- The client cache of pending callbacks, generic over the callback type:
message id ↦ (callback, created seconds). -/
structure ResponseCache (α : Type) where
  cache : List (Nat × α × Int)
  timeoutSecs : Int

def ResponseCache.Add {α : Type} (rc : ResponseCache α) (messageID : Nat)
    (cb : α) (now : Int) : Option CacheErr × ResponseCache α :=
  match assocGet rc.cache messageID with
  | some _ => (some .messageIDExists, rc)
  | none => (none, { rc with cache := assocPut rc.cache messageID (cb, now) })

def ResponseCache.Pull {α : Type} (rc : ResponseCache α) (messageID : Nat)
    (now : Int) : Option α × Option CacheErr × ResponseCache α :=
  match assocGet rc.cache messageID with
  | none => (none, some .noMessage, rc)
  | some e =>
    let rc' := { rc with cache := assocRemove rc.cache messageID }
    if e.2 < now - rc.timeoutSecs then (none, some .messageExpired, rc')
    else (some e.1, none, rc')

/-! ### Server worker (src/server/server.go)

The worker is modelled as a function from the raw frame and the store to the
next store, the reply packet it dispatches back (if any), and whether it
republishes the packet to peers.  The Go string conversions of the stdlib
(`strings.TrimSpace` composed with the UTF-8 decode of `NamespaceString` /
`DataValueString`, and `[]byte(string)`) are abstracted as the parameters
`trim` and `encode`. -/

def maxUint32 : Nat := 2 ^ 32 - 1

def errorReply (encode : String → List Nat) (p : Packet) (e : ProtoErr)
    (psk : List Nat) : Packet :=
  NewPacketFromParts ResError p.messageIDBytes p.nspace (encode e.text) psk

def workerDispatch (compile : String → Except String (String → Bool))
    (encode : String → List Nat) (trim : List Nat → String) (psk : List Nat)
    (peersNonempty : Bool) (s : Store) (p : Packet) (now : Int) :
    Store × Option Packet × Bool :=
  if p.command = CmdPutReplicate then
    (s.Put (trim p.nspace) (trim p.dataValue) now, none, false)
  else if p.command = CmdPut then
    (s.Put (trim p.nspace) (trim p.dataValue) now,
     some (NewPacketFromParts CmdPut p.messageIDBytes p.nspace [] psk),
     peersNonempty)
  else if p.command = CmdCount then
    let r := s.Count (trim p.nspace) (trim p.dataValue) now
    (r.2, some (NewPacketFromParts CmdCount p.messageIDBytes p.nspace
      (Uint32ToBytes (min r.1 maxUint32)) psk), false)
  else if p.command = CmdCountNamespace then
    let r := s.CountEntries (trim p.nspace) now
    (r.2, some (NewPacketFromParts CmdCountNamespace p.messageIDBytes p.nspace
      (Uint32ToBytes (min r.1 maxUint32)) psk), false)
  else if p.command = CmdCountServer then
    let r := s.CountServerEntries now
    (r.2, some (NewPacketFromParts CmdCountServer p.messageIDBytes p.nspace
      (Uint32ToBytes (min r.1 maxUint32)) psk), false)
  else if p.command = CmdTCPOnlyKeys then
    let r := Store.KeyMatch compile s (trim p.nspace) (trim p.dataValue) now
    (r.2, some (NewPacketFromParts CmdTCPOnlyKeys p.messageIDBytes p.nspace
      (encode (String.intercalate "\n" r.1)) psk), false)
  else
    (s, some (NewPacketFromParts ResError p.messageIDBytes p.nspace
      (encode ("unknown_command_" ++ String.singleton (Char.ofNat p.command))) psk), false)

/-- The worker loop body for one raw message.  A nil packet (buffer under 82
bytes) would nil-dereference in Go while building the error reply; workers
only ever receive full 1500-byte UDP buffers, and the model returns no
effect for that unreachable case. -/
def workerHandle (compile : String → Except String (String → Bool))
    (encode : String → List Nat) (trim : List Nat → String) (psk : List Nat)
    (peersNonempty : Bool) (s : Store) (raw : List Nat) (now : Int) :
    Store × Option Packet × Bool :=
  match ParsePacket raw with
  | (none, _) => (s, none, false)
  | (some p, some e) => (s, some (errorReply encode p e psk), false)
  | (some p, none) =>
    match p.Validate psk with
    | some e => (s, some (errorReply encode p e psk), false)
    | none => workerDispatch compile encode trim psk peersNonempty s p now

/-- Bytes written to the TCP connection by respondOrLogErrorTCP: the stop
symbol is appended to the data value, the frame is serialised with the UDP
`Bytes()`, and the buffer is written unless the error is something other than
`ErrBadOutputSize` — on `ErrBadOutputSize` the nil buffer (zero bytes) is
written.  `some (some bs)` means `bs` was written; `some none` means the
function returned without writing; outer `none` models the `bytes()` panic. -/
def respondOrLogErrorTCP (p : Packet) : Option (Option (List Nat)) :=
  (Packet.Bytes { p with dataValue := p.dataValue ++ StopSymbol }).map fun r =>
    match r.2 with
    | some e => if e = ProtoErr.badOutputSize then some (r.1.getD []) else none
    | none => some (r.1.getD [])

/-! ### Derived observers and helper definitions used by the theorems -/

/-- The stored timestamp list of a (namespace, entry key) pair. -/
def Store.dates (s : Store) (ns k : String) : List Int :=
  match assocGet s.namespaces ns with
  | none => []
  | some t => (assocGet t.tree k).getD []

/-- Every tree of the store carries the store's TTL; true of every store the
code can build, since trees are only created by `Store.Put` via `NewTree`. -/
def Store.uniformTTL (s : Store) (ttl : Int) : Prop :=
  s.expireAfterSecs = ttl ∧ ∀ e ∈ s.namespaces, e.2.defaultExpireAfterSecs = ttl

/-- Apply a sequence of put operations `(namespace, entry key, time)`. -/
def applyPuts (s : Store) (ops : List (String × String × Int)) : Store :=
  ops.foldl (fun acc op => acc.Put op.1 op.2.1 op.2.2) s

/-- ASCII bytes of a string; the UTF-8 encoding of every text the worker
replies with (all ASCII). -/
def asciiBytes (s : String) : List Nat := s.data.map Char.toNat

/-- A concrete instance of the abstracted Go `TrimSpace` + decode used to
instantiate witnesses. -/
def goTrimSpaceAscii (bs : List Nat) : String :=
  String.mk ((((bs.dropWhile (· == 32)).reverse.dropWhile (· == 32)).reverse).map Char.ofNat)

/-- A concrete regexp engine accepting everything, for witnesses. -/
def compileAll : String → Except String (String → Bool) := fun _ => .ok fun _ => true

/-- A concrete regexp engine failing with a fixed message, for witnesses. -/
def compileNone : String → Except String (String → Bool) := fun _ => .error "compile error"

/-- A packet whose command byte 88 is not a recognised command; it serialises
fine but the parser rejects its frame. -/
def c2BadPacket : Packet := NewPacketFromParts 88 [1, 0, 0, 0] [] [] []

def c2BadFrame : List Nat := c2BadPacket.bytesRaw

/-- A well-formed COUNT packet used to witness the round trip. -/
def c2GoodPacket : Packet := NewPacketFromParts CmdCount [1, 0, 0, 0] [110, 115] [107] []

def c2GoodFrame : List Nat := c2GoodPacket.bytesRaw

/-- A signed PUT-REPLICATE frame (empty preshared key) used to witness the
worker dispatch. -/
def c8Raw : List Nat :=
  (NewPacketFromParts CmdPutReplicate [1, 0, 0, 0] [110, 115] [107] []).bytesRaw

/-- The packet `ParsePacket c8Raw` yields. -/
def c8Packet : Packet :=
  { command := CmdPutReplicate
    hashBytes := listSlice c8Raw 2 10
    hash := Uint64FromBytes (listSlice c8Raw 2 10)
    messageIDBytes := listSlice c8Raw 11 15
    messageID := Uint32FromBytes (listSlice c8Raw 11 15)
    nspace := listSlice c8Raw 16 80
    dataValue := padRight (listSlice c8Raw 81 1500) DataValueSize }

/-! ### Association-list laws -/

theorem assocGet_put_self {κ α : Type} [DecidableEq κ] (t : List (κ × α)) (k : κ) (v : α) :
    assocGet (assocPut t k v) k = some v := by
  induction t with
  | nil => simp [assocPut, assocGet]
  | cons e rest ih =>
    obtain ⟨k', w⟩ := e
    by_cases h : k' = k
    · simp [assocPut, h, assocGet]
    · simp [assocPut, h, assocGet, ih]

theorem assocGet_put_ne {κ α : Type} [DecidableEq κ] (t : List (κ × α)) (k j : κ) (v : α)
    (h : j ≠ k) : assocGet (assocPut t k v) j = assocGet t j := by
  induction t with
  | nil => simp [assocPut, assocGet, Ne.symm h]
  | cons e rest ih =>
    obtain ⟨k', w⟩ := e
    by_cases h' : k' = k
    · subst h'
      simp [assocPut, assocGet, Ne.symm h]
    · simp [assocPut, h', assocGet, ih]

theorem assocGet_remove {κ α : Type} [DecidableEq κ] (t : List (κ × α)) (k j : κ) :
    assocGet (assocRemove t k) j = if j = k then none else assocGet t j := by
  induction t with
  | nil => simp [assocRemove, assocGet, ite_self]
  | cons e rest ih =>
    obtain ⟨k', w⟩ := e
    by_cases hk : k' = k
    · subst hk
      rw [show assocRemove ((k', w) :: rest) k' = assocRemove rest k' from by
        simp [assocRemove, List.filter]]
      rw [ih]
      by_cases hj : j = k'
      · simp [hj]
      · simp [hj, assocGet, Ne.symm hj]
    · rw [show assocRemove ((k', w) :: rest) k = (k', w) :: assocRemove rest k from by
        simp [assocRemove, List.filter, hk]]
      by_cases hj : k' = j
      · subst hj
        simp [assocGet, hk]
      · simp [assocGet, hj, ih]

theorem assocGet_eq_none_of_not_mem {κ α : Type} [DecidableEq κ] {t : List (κ × α)} {k : κ}
    (h : k ∉ t.map Prod.fst) : assocGet t k = none := by
  induction t with
  | nil => simp [assocGet]
  | cons e rest ih =>
    obtain ⟨k', w⟩ := e
    simp only [List.map_cons, List.mem_cons, not_or] at h
    simp [assocGet, Ne.symm h.1, ih h.2]

theorem mem_assocPut {κ α : Type} [DecidableEq κ] (t : List (κ × α)) (k : κ) (v : α)
    (e : κ × α) (he : e ∈ assocPut t k v) : e = (k, v) ∨ e ∈ t := by
  induction t with
  | nil => simpa [assocPut] using he
  | cons f rest ih =>
    obtain ⟨k', w⟩ := f
    by_cases h : k' = k
    · simp only [assocPut, if_pos h, List.mem_cons] at he
      rcases he with he | he
      · exact Or.inl he
      · exact Or.inr (List.mem_cons_of_mem _ he)
    · simp only [assocPut, if_neg h, List.mem_cons] at he
      rcases he with he | he
      · exact Or.inr (by simp [he])
      · rcases ih he with h1 | h1
        · exact Or.inl h1
        · exact Or.inr (List.mem_cons_of_mem _ h1)

/-! ### Live-count laws for the expiring tree -/

theorem removeExpired_eq_filter (l : List Int) (now : Int) :
    removeExpired l now = l.filter (fun d => decide (now < d)) := by
  unfold removeExpired
  split
  · rename_i h
    simp [List.length_eq_zero.mp h]
  · rfl

theorem liveList_filter (l : List Int) (now : Int) :
    liveList (l.filter (fun d => decide (now < d))) now = liveList l now := by
  simp [liveList, List.filter_filter]

theorem length_removeExpired (l : List Int) (now : Int) :
    (removeExpired l now).length = liveList l now := by
  rw [removeExpired_eq_filter]; rfl

theorem getAndCleanupUnsafe_fst (t : List (String × List Int)) (k : String) :
    (getAndCleanupUnsafe t k).1.getD [] = (assocGet t k).getD [] := by
  unfold getAndCleanupUnsafe
  cases hg : assocGet t k with
  | none => rfl
  | some dates =>
    by_cases hd : dates.length = 0
    · simp [hd, List.length_eq_zero.mp hd]
    · simp [hd]

theorem Tree.Count_fst (n : Tree) (k : String) (now : Int) :
    (n.Count k now).1 = n.live k now := by
  unfold Tree.Count getAndCleanupUnsafe Tree.live
  cases hg : assocGet n.tree k with
  | none => simp
  | some dates =>
    by_cases hd : dates.length = 0
    · simp [hd, List.length_eq_zero.mp hd, liveList]
    · simp [hd, length_removeExpired]

theorem Tree.Count_live (n : Tree) (k : String) (now : Int) (j : String) :
    (n.Count k now).2.live j now = n.live j now := by
  unfold Tree.Count getAndCleanupUnsafe
  cases hg : assocGet n.tree k with
  | none => simp [Tree.live]
  | some dates =>
    by_cases hd : dates.length = 0
    · by_cases hj : j = k
      · subst hj
        simp [hd, Tree.live, assocGet_remove, hg, List.length_eq_zero.mp hd, liveList]
      · simp [hd, Tree.live, assocGet_remove, hj]
    · by_cases hj : j = k
      · subst hj
        simp [hd, Tree.live, assocGet_put_self, hg, removeExpired_eq_filter, liveList_filter]
      · simp [hd, Tree.live, assocGet_put_ne _ _ _ _ hj]

theorem Tree.Put_live_ne (n : Tree) (k : String) (now : Int) (j : String) (hj : j ≠ k)
    (now' : Int) : (n.Put k now).live j now' = n.live j now' := by
  unfold Tree.Put getAndCleanupUnsafe
  cases hg : assocGet n.tree k with
  | none => simp [Tree.live, assocGet_put_ne _ _ _ _ hj]
  | some dates =>
    by_cases hd : dates.length = 0
    · simp [hd, Tree.live, assocGet_put_ne _ _ _ _ hj, assocGet_remove, hj]
    · simp [hd, Tree.live, assocGet_put_ne _ _ _ _ hj]

theorem Tree.Put_get_self (n : Tree) (k : String) (now : Int) :
    assocGet (n.Put k now).tree k
      = some (removeExpired ((assocGet n.tree k).getD []) now
          ++ [now + n.defaultExpireAfterSecs]) := by
  unfold Tree.Put
  rw [assocGet_put_self, getAndCleanupUnsafe_fst]

theorem Tree.Put_ttl (n : Tree) (k : String) (now : Int) :
    (n.Put k now).defaultExpireAfterSecs = n.defaultExpireAfterSecs := rfl

/-! ### Laws for the Keys and KeyMatch iterations -/

theorem keysFold_live (now : Int) (ks : List String) (n : Tree) (j : String) :
    (keysFold now n ks).2.2.live j now = n.live j now := by
  induction ks generalizing n with
  | nil => rfl
  | cons k rest ih =>
    simp only [keysFold]
    rw [ih, Tree.Count_live]

theorem keysFold_out (now : Int) (ks : List String) (n : Tree) :
    (keysFold now n ks).1 = ks.filter (fun k => decide (0 < n.live k now)) := by
  induction ks generalizing n with
  | nil => rfl
  | cons k rest ih =>
    have hrest : (keysFold now (n.Count k now).2 rest).1
        = rest.filter (fun k' => decide (0 < n.live k' now)) := by
      rw [ih]
      exact List.filter_congr (fun k' _ => by rw [Tree.Count_live])
    simp only [keysFold, List.filter_cons, Tree.Count_fst, hrest]
    by_cases hz : n.live k now = 0
    · simp [hz]
    · simp [hz, Nat.pos_of_ne_zero hz]

theorem keysFold_count (now : Int) (ks : List String) (n : Tree) :
    (keysFold now n ks).2.1 = (ks.map (fun k => n.live k now)).sum := by
  induction ks generalizing n with
  | nil => rfl
  | cons k rest ih =>
    have hrest : (keysFold now (n.Count k now).2 rest).2.1
        = (rest.map (fun k' => n.live k' now)).sum := by
      rw [ih]
      congr 1
      exact List.map_congr_left (fun k' _ => by rw [Tree.Count_live])
    simp only [keysFold, List.map_cons, List.sum_cons, Tree.Count_fst, hrest]

theorem Tree.Keys_live (n : Tree) (now : Int) (j : String) :
    (n.Keys now).2.2.live j now = n.live j now := keysFold_live now _ n j

theorem Tree.Keys_out (n : Tree) (now : Int) :
    (n.Keys now).1 = (n.tree.map Prod.fst).filter (fun k => decide (0 < n.live k now)) :=
  keysFold_out now _ n

theorem Tree.Keys_count (n : Tree) (now : Int) :
    (n.Keys now).2.1 = ((n.tree.map Prod.fst).map (fun k => n.live k now)).sum :=
  keysFold_count now _ n

theorem Tree.live_eq_zero_of_not_mem (n : Tree) (now : Int) (j : String)
    (h : j ∉ n.tree.map Prod.fst) : n.live j now = 0 := by
  unfold Tree.live
  rw [assocGet_eq_none_of_not_mem h]

theorem Tree.Keys_nil_all_dead (n : Tree) (now : Int) (h : (n.Keys now).1 = []) :
    ∀ j, n.live j now = 0 := by
  intro j
  by_cases hj : j ∈ n.tree.map Prod.fst
  · rw [Tree.Keys_out] at h
    have := List.filter_eq_nil_iff.mp h j hj
    simpa using Nat.eq_zero_of_not_pos (by simpa using this)
  · exact Tree.live_eq_zero_of_not_mem n now j hj

theorem matchFold_live (now : Int) (re : String → Bool) (ks : List String) (n : Tree)
    (j : String) : (matchFold now re n ks).2.live j now = n.live j now := by
  induction ks generalizing n with
  | nil => rfl
  | cons k rest ih =>
    by_cases hre : re k
    · simp only [matchFold, hre, if_true]
      rw [ih, Tree.Count_live]
    · simp only [matchFold, hre, if_false]
      exact ih n

theorem matchFold_out (now : Int) (re : String → Bool) (ks : List String) (n : Tree) :
    (matchFold now re n ks).1
      = ks.filter (fun k => re k && decide (0 < n.live k now)) := by
  induction ks generalizing n with
  | nil => rfl
  | cons k rest ih =>
    by_cases hre : re k
    · have hrest : (matchFold now re (n.Count k now).2 rest).1
          = rest.filter (fun k' => re k' && decide (0 < n.live k' now)) := by
        rw [ih]
        exact List.filter_congr (fun k' _ => by rw [Tree.Count_live])
      simp only [matchFold, hre, if_true, List.filter_cons, Tree.Count_fst, hrest]
      by_cases hz : 0 < n.live k now
      · simp [hz, hre]
      · simp [hz, hre]
    · simp only [matchFold, hre, if_false, List.filter_cons]
      simp only [hre, Bool.false_and, if_false]
      exact ih n

/-! ### Store-level laws -/

theorem assocGet_mem {κ α : Type} [DecidableEq κ] {t : List (κ × α)} {k : κ} {v : α}
    (h : assocGet t k = some v) : (k, v) ∈ t := by
  induction t with
  | nil => simp [assocGet] at h
  | cons e rest ih =>
    obtain ⟨k', w⟩ := e
    by_cases hk : k' = k
    · subst hk
      simp [assocGet] at h
      simp [h]
    · simp [assocGet, hk] at h
      exact List.mem_cons_of_mem _ (ih h)

theorem Store.live_eq_dates (s : Store) (ns k : String) (now : Int) :
    s.live ns k now = liveList (s.dates ns k) now := by
  unfold Store.live Store.dates Tree.live
  cases assocGet s.namespaces ns with
  | none => simp [liveList]
  | some t =>
    cases hg2 : assocGet t.tree k with
    | none => simp [hg2, liveList]
    | some l => simp [hg2]

theorem Store.Count_value (s : Store) (ns k : String) (now : Int) :
    (s.Count ns k now).1 = s.live ns k now := by
  unfold Store.Count Store.live
  cases hg : assocGet s.namespaces ns with
  | none => simp
  | some t => simp [Tree.Count_fst]

theorem Store.Count_live_all (s : Store) (ns k : String) (now : Int) (ns' k' : String) :
    (s.Count ns k now).2.live ns' k' now = s.live ns' k' now := by
  unfold Store.Count
  cases hg : assocGet s.namespaces ns with
  | none => simp [Store.live]
  | some t =>
    by_cases hns : ns' = ns
    · subst hns
      simp [Store.live, assocGet_put_self, hg, Tree.Count_live]
    · simp [Store.live, assocGet_put_ne _ _ _ _ hns]

theorem Store.Put_live_other (s : Store) (ns k : String) (now : Int) (ns' k' : String)
    (h : ¬(ns' = ns ∧ k' = k)) (now' : Int) :
    (s.Put ns k now).live ns' k' now' = s.live ns' k' now' := by
  unfold Store.Put
  cases hg : assocGet s.namespaces ns with
  | none =>
    by_cases hns : ns' = ns
    · subst hns
      have hk : k' ≠ k := fun hh => h ⟨rfl, hh⟩
      simp [Store.live, assocGet_put_self, hg, Tree.Put_live_ne _ _ _ _ hk, Tree.live,
        NewTree, assocGet, Ne.symm hk]
    · simp [Store.live, assocGet_put_ne _ _ _ _ hns]
  | some t =>
    by_cases hns : ns' = ns
    · subst hns
      have hk : k' ≠ k := fun hh => h ⟨rfl, hh⟩
      simp [Store.live, assocGet_put_self, hg, Tree.Put_live_ne _ _ _ _ hk]
    · simp [Store.live, assocGet_put_ne _ _ _ _ hns]

theorem Store.Put_dates_ne (s : Store) (ns k : String) (now : Int) (ns' k' : String)
    (h : ¬(ns' = ns ∧ k' = k)) : (s.Put ns k now).dates ns' k' = s.dates ns' k' := by
  unfold Store.Put Store.dates
  cases hg : assocGet s.namespaces ns with
  | none =>
    by_cases hns : ns' = ns
    · subst hns
      have hk : k' ≠ k := fun hh => h ⟨rfl, hh⟩
      rw [assocGet_put_self]
      show (assocGet ((NewTree s.expireAfterSecs).Put k now).tree k').getD [] = _
      unfold Tree.Put getAndCleanupUnsafe NewTree
      simp [assocGet, assocGet_put_ne _ _ _ _ hk, Ne.symm hk, hg]
    · simp [assocGet_put_ne _ _ _ _ hns]
  | some t =>
    by_cases hns : ns' = ns
    · subst hns
      have hk : k' ≠ k := fun hh => h ⟨rfl, hh⟩
      rw [assocGet_put_self]
      show (assocGet (t.Put k now).tree k').getD [] = _
      unfold Tree.Put
      cases hg3 : assocGet t.tree k with
      | none =>
        unfold getAndCleanupUnsafe
        simp [hg3, assocGet_put_ne _ _ _ _ hk, hg]
      | some dates =>
        unfold getAndCleanupUnsafe
        by_cases hd : dates.length = 0
        · simp [hg3, hd, assocGet_put_ne _ _ _ _ hk, assocGet_remove, hk, hg]
        · simp [hg3, hd, assocGet_put_ne _ _ _ _ hk, hg]
    · simp [assocGet_put_ne _ _ _ _ hns]

theorem Store.Put_expire (s : Store) (ns k : String) (now : Int) :
    (s.Put ns k now).expireAfterSecs = s.expireAfterSecs := by
  unfold Store.Put
  cases assocGet s.namespaces ns <;> rfl

theorem Store.Put_uniformTTL (s : Store) (ns k : String) (now ttl : Int)
    (h : s.uniformTTL ttl) : (s.Put ns k now).uniformTTL ttl := by
  refine ⟨by rw [Store.Put_expire]; exact h.1, ?_⟩
  intro e he
  unfold Store.Put at he
  cases hg : assocGet s.namespaces ns with
  | none =>
    rw [hg] at he
    simp only at he
    rcases mem_assocPut _ _ _ _ he with h1 | h1
    · rw [h1]
      show ((NewTree s.expireAfterSecs).Put k now).defaultExpireAfterSecs = ttl
      rw [Tree.Put_ttl]
      exact h.1
    · exact h.2 e h1
  | some t =>
    rw [hg] at he
    simp only at he
    rcases mem_assocPut _ _ _ _ he with h1 | h1
    · rw [h1]
      show (t.Put k now).defaultExpireAfterSecs = ttl
      rw [Tree.Put_ttl]
      exact h.2 (ns, t) (assocGet_mem hg)
    · exact h.2 e h1

theorem Store.Put_dates_self (s : Store) (ns k : String) (now ttl : Int)
    (h : s.uniformTTL ttl) :
    (s.Put ns k now).dates ns k = removeExpired (s.dates ns k) now ++ [now + ttl] := by
  unfold Store.Put Store.dates
  cases hg : assocGet s.namespaces ns with
  | none =>
    rw [assocGet_put_self]
    show (assocGet ((NewTree s.expireAfterSecs).Put k now).tree k).getD [] = _
    rw [Tree.Put_get_self]
    simp [NewTree, assocGet, h.1]
  | some t =>
    rw [assocGet_put_self]
    show (assocGet (t.Put k now).tree k).getD [] = _
    rw [Tree.Put_get_self]
    have httl : t.defaultExpireAfterSecs = ttl := h.2 (ns, t) (assocGet_mem hg)
    simp [hg, httl]

/-! ### Cleanup laws -/

theorem cleanupFold_live (now : Int) (sel : List String) (s : Store) (ns k : String) :
    (cleanupFold now s sel).live ns k now = s.live ns k now := by
  induction sel generalizing s with
  | nil => rfl
  | cons a rest ih =>
    show (match assocGet s.namespaces a with
      | none => cleanupFold now s rest
      | some subtree => _).live ns k now = _
    cases hg : assocGet s.namespaces a with
    | none => exact ih s
    | some t =>
      simp only
      by_cases hout : (t.Keys now).1.length = 0
      · rw [if_pos hout] at *
        rw [ih]
        have hdead := Tree.Keys_nil_all_dead t now (List.length_eq_zero.mp hout)
        by_cases hns : ns = a
        · subst hns
          simp [Store.live, assocGet_remove, hg, hdead]
        · simp [Store.live, assocGet_remove, hns]
      · rw [if_neg hout]
        rw [ih]
        by_cases hns : ns = a
        · subst hns
          simp [Store.live, assocGet_put_self, hg, Tree.Keys_live]
        · simp [Store.live, assocGet_put_ne _ _ _ _ hns]

theorem cleanupFold_frame (now : Int) (sel : List String) (s : Store) (ns : String)
    (h : ns ∉ sel) :
    assocGet (cleanupFold now s sel).namespaces ns = assocGet s.namespaces ns := by
  induction sel generalizing s with
  | nil => rfl
  | cons a rest ih =>
    have hna : ns ≠ a := fun hh => h (by simp [hh])
    have hrest : ns ∉ rest := fun hh => h (List.mem_cons_of_mem _ hh)
    show assocGet (match assocGet s.namespaces a with
      | none => cleanupFold now s rest
      | some subtree => _).namespaces ns = _
    cases hg : assocGet s.namespaces a with
    | none => exact ih s hrest
    | some t =>
      simp only
      by_cases hout : (t.Keys now).1.length = 0
      · rw [if_pos hout, ih _ hrest]
        simp [assocGet_remove, hna]
      · rw [if_neg hout, ih _ hrest]
        exact assocGet_put_ne _ _ _ _ hna

theorem cleanupFold_removed_dead (now : Int) (sel : List String) (s : Store) (ns : String)
    (hrem : assocGet (cleanupFold now s sel).namespaces ns = none)
    (hpres : assocGet s.namespaces ns ≠ none) :
    ∀ k, s.live ns k now = 0 := by
  induction sel generalizing s with
  | nil => exact absurd hrem hpres
  | cons a rest ih =>
    rw [show cleanupFold now s (a :: rest) = (match assocGet s.namespaces a with
      | none => cleanupFold now s rest
      | some subtree =>
        let r := subtree.Keys now
        cleanupFold now
          (if r.1.length = 0 then { s with namespaces := assocRemove s.namespaces a }
           else { s with namespaces := assocPut s.namespaces a r.2.2 }) rest)
      from rfl] at hrem
    cases hg : assocGet s.namespaces a with
    | none =>
      rw [hg] at hrem
      exact ih s hrem hpres
    | some t =>
      rw [hg] at hrem
      simp only at hrem
      by_cases hout : (t.Keys now).1.length = 0
      · rw [if_pos hout] at hrem
        have hdead := Tree.Keys_nil_all_dead t now (List.length_eq_zero.mp hout)
        by_cases hns : ns = a
        · subst hns
          intro k
          simp [Store.live, hg, hdead]
        · intro k
          have h1 : assocGet (assocRemove s.namespaces a) ns = assocGet s.namespaces ns := by
            simp [assocGet_remove, hns]
          have := ih _ hrem (by rw [h1]; exact hpres)
          have h2 := this k
          simpa [Store.live, h1] using h2
      · rw [if_neg hout] at hrem
        intro k
        by_cases hns : ns = a
        · subst hns
          have h1 : assocGet (assocPut s.namespaces ns (Tree.Keys t now).2.2) ns
              = some (Tree.Keys t now).2.2 := assocGet_put_self _ _ _
          have := ih _ hrem (by rw [h1]; simp)
          have h2 := this k
          rw [Store.live, h1] at h2
          simp only at h2
          rw [Tree.Keys_live] at h2
          simpa [Store.live, hg] using h2
        · have h1 : assocGet (assocPut s.namespaces a (Tree.Keys t now).2.2) ns
              = assocGet s.namespaces ns := assocGet_put_ne _ _ _ _ hns
          have := ih _ hrem (by rw [h1]; exact hpres)
          have h2 := this k
          simpa [Store.live, h1] using h2

/-! ### List and length helpers for the codec proofs -/

theorem padRight_length (l : List Nat) (n : Nat) :
    (padRight l n).length = max n l.length := by
  unfold padRight
  split
  · rename_i h
    omega
  · rename_i h
    simp only [List.length_append, List.length_replicate]
    omega

theorem getD_append_right {α : Type} (l₁ l₂ : List α) (n : Nat) (d : α)
    (h : l₁.length ≤ n) : (l₁ ++ l₂).getD n d = l₂.getD (n - l₁.length) d := by
  induction l₁ generalizing n with
  | nil => simp
  | cons a t ih =>
    cases n with
    | zero => simp at h
    | succ m =>
      simp only [List.cons_append, List.getD_cons_succ, List.length_cons]
      rw [ih m (by simpa using h)]
      congr 1
      omega

theorem drop_append_len {α : Type} {l₁ l₂ : List α} {n : Nat} (h : l₁.length = n) :
    (l₁ ++ l₂).drop n = l₂ := by
  subst h
  simp

theorem take_append_len {α : Type} {l₁ l₂ : List α} {n : Nat} (h : l₁.length = n) :
    (l₁ ++ l₂).take n = l₁ := by
  subst h
  simp

theorem getD_take {α : Type} (l : List α) (n i : Nat) (d : α) (h : i < n) :
    (l.take n).getD i d = l.getD i d := by
  induction l generalizing n i with
  | nil => simp
  | cons a t ih =>
    cases n with
    | zero => omega
    | succ m =>
      cases i with
      | zero => simp
      | succ j =>
        simp only [List.take_succ_cons, List.getD_cons_succ]
        exact ih m j (by omega)

theorem Uint64FromBytes_take (l : List Nat) :
    Uint64FromBytes (l.take 8) = Uint64FromBytes l := by
  unfold Uint64FromBytes
  rw [getD_take _ _ _ _ (by omega : 0 < 8), getD_take _ _ _ _ (by omega : 1 < 8),
    getD_take _ _ _ _ (by omega : 2 < 8), getD_take _ _ _ _ (by omega : 3 < 8),
    getD_take _ _ _ _ (by omega : 4 < 8), getD_take _ _ _ _ (by omega : 5 < 8),
    getD_take _ _ _ _ (by omega : 6 < 8), getD_take _ _ _ _ (by omega : 7 < 8)]

theorem Uint32FromBytes_take (l : List Nat) :
    Uint32FromBytes (l.take 4) = Uint32FromBytes l := by
  unfold Uint32FromBytes
  rw [getD_take _ _ _ _ (by omega : 0 < 4), getD_take _ _ _ _ (by omega : 1 < 4),
    getD_take _ _ _ _ (by omega : 2 < 4), getD_take _ _ _ _ (by omega : 3 < 4)]

theorem HashPacket_length (p : Packet) (key : List Nat) :
    (HashPacket p key).length
      = key.length + p.messageIDBytes.length + p.nspace.length + p.dataValue.length + 8 := by
  simp only [HashPacket, List.length_append]
  have : xxh64EmptyDigestBytes.length = 8 := rfl
  omega

theorem bytesRaw_length (p : Packet) (h8 : 8 ≤ p.hashBytes.length)
    (h4 : 4 ≤ p.messageIDBytes.length) :
    p.bytesRaw.length
      = 17 + max NamespaceSize p.nspace.length + max DataValueSize p.dataValue.length := by
  simp only [Packet.bytesRaw, List.length_cons, List.length_append, List.length_take,
    padRight_length]
  omega

theorem liveList_append (a b : List Int) (now : Int) :
    liveList (a ++ b) now = liveList a now + liveList b now := by
  simp [liveList, List.filter_append]

/-! ### The claims -/

/-- C10: in the waiting-callback cache, Add rejects an already-pending message
id with the IDExists error leaving the cache unchanged and stores the callback
otherwise; Pull returns NoMessage for an absent id (absence wins over expiry),
always removes an existing entry — even an expired one — returns Expired when
the entry's age exceeds the timeout, and otherwise returns the callback. -/
theorem claim_C10 {α : Type} (rc : ResponseCache α) (id : Nat) (now : Int) :
    (∀ cb, (assocGet rc.cache id).isSome →
        rc.Add id cb now = (some CacheErr.messageIDExists, rc))
    ∧ (∀ cb, assocGet rc.cache id = none →
        rc.Add id cb now = (none, { rc with cache := assocPut rc.cache id (cb, now) }))
    ∧ (assocGet rc.cache id = none →
        rc.Pull id now = (none, some CacheErr.noMessage, rc))
    ∧ (∀ e, assocGet rc.cache id = some e →
        assocGet ((rc.Pull id now).2.2).cache id = none)
    ∧ (∀ e, assocGet rc.cache id = some e → e.2 < now - rc.timeoutSecs →
        rc.Pull id now = (none, some CacheErr.messageExpired,
          { rc with cache := assocRemove rc.cache id }))
    ∧ (∀ e, assocGet rc.cache id = some e → ¬e.2 < now - rc.timeoutSecs →
        rc.Pull id now = (some e.1, none, { rc with cache := assocRemove rc.cache id })) := by
  refine ⟨?_, ?_, ?_, ?_, ?_, ?_⟩
  · intro cb h
    unfold ResponseCache.Add
    cases hg : assocGet rc.cache id with
    | none => rw [hg] at h; simp at h
    | some e => simp
  · intro cb h
    unfold ResponseCache.Add
    rw [h]
  · intro h
    unfold ResponseCache.Pull
    rw [h]
  · intro e h
    unfold ResponseCache.Pull
    rw [h]
    by_cases hx : e.2 < now - rc.timeoutSecs <;> simp [hx, assocGet_remove]
  · intro e h hx
    unfold ResponseCache.Pull
    rw [h]
    simp [hx]
  · intro e h hx
    unfold ResponseCache.Pull
    rw [h]
    simp [hx]

/-- C10 witness: a pending entry created at second 0 with timeout 5 pulled at
second 10 is expired and removed; re-adding its id first is rejected. -/
theorem claim_C10_witness :
    (ResponseCache.Add (⟨[(7, ((0 : Nat), (0 : Int)))], 5⟩ : ResponseCache Nat) 7 9 10
      = (some CacheErr.messageIDExists, ⟨[(7, (0, 0))], 5⟩))
    ∧ (ResponseCache.Pull (⟨[(7, ((0 : Nat), (0 : Int)))], 5⟩ : ResponseCache Nat) 7 10
      = (none, some CacheErr.messageExpired,
         { cache := assocRemove [(7, ((0 : Nat), (0 : Int)))] 7, timeoutSecs := 5 })) :=
  ⟨(claim_C10 (⟨[(7, (0, 0))], 5⟩ : ResponseCache Nat) 7 10).1 9 (by decide),
   (claim_C10 (⟨[(7, (0, 0))], 5⟩ : ResponseCache Nat) 7 10).2.2.2.2.1 (0, 0)
     (by decide) (by decide)⟩

/-- C4 counterexample: a key whose only occurrence has expired is NOT removed
by Count — the empty swept list is stored back, so the key remains in the tree
after Count returns 0, contradicting the claim that no fully-expired key
survives a Count call on it. -/
theorem claim_C4_counterexample :
    ((((NewTree 5).Put "k" 0).Count "k" 10).1 = 0)
    ∧ assocGet ((((NewTree 5).Put "k" 0).Count "k" 10).2).tree "k" = some [] := by
  constructor <;> rfl

/-- C4 (amended): Count returns 0 for an absent key; it removes the key and
returns 0 when the STORED list is already empty when fetched; otherwise it
stores the swept list back — even when the sweep empties it, in which case the
key remains, holding an empty list, until the next access — and returns the
swept list's length. -/
theorem claim_C4 (n : Tree) (k : String) (now : Int) :
    (assocGet n.tree k = none → n.Count k now = (0, n))
    ∧ (assocGet n.tree k = some [] →
        n.Count k now = (0, { n with tree := assocRemove n.tree k }))
    ∧ (∀ l, assocGet n.tree k = some l → l ≠ [] →
        n.Count k now
          = ((removeExpired l now).length,
             { n with tree := assocPut n.tree k (removeExpired l now) })) := by
  refine ⟨?_, ?_, ?_⟩
  · intro h
    unfold Tree.Count getAndCleanupUnsafe
    rw [h]
  · intro h
    unfold Tree.Count getAndCleanupUnsafe
    rw [h]
    simp
  · intro l h hl
    unfold Tree.Count getAndCleanupUnsafe
    rw [h]
    have : ¬l.length = 0 := by simpa using (List.length_eq_zero).not.mpr hl
    simp [this]

/-- C4 witness: a key with one live and one expired entry is swept in place
and counted as 1. -/
theorem claim_C4_witness :
    Tree.Count ⟨5, [("k", [3, 20])]⟩ "k" 10
      = ((removeExpired [3, 20] 10).length,
         { defaultExpireAfterSecs := 5,
           tree := assocPut [("k", [3, 20])] "k" (removeExpired [3, 20] 10) }) :=
  (claim_C4 ⟨5, [("k", [3, 20])]⟩ "k" 10).2.2 [3, 20] (by decide) (by decide)

/-- C5 counterexample: the empty buffer is rejected for size but NO partially
populated packet is returned — the packet pointer is nil, contradicting the
claim that every rejected input still carries a packet. -/
theorem claim_C5_counterexample :
    ParsePacket [] = (none, some ProtoErr.invalidPacketSize) := by rfl

/-- C5 (amended): every buffer whose length is not 1500 is rejected with the
invalid-size error; buffers of at least 82 bytes always come back with a
partially populated packet, while shorter ones yield no packet at all; a full
1500-byte frame with an unrecognised command byte carries the invalid-command
error; and a frame parsed without error has a recognised command and spaces at
all four delimiter offsets. -/
theorem claim_C5 (buf : List Nat) :
    (buf.length ≠ PacketSize → (ParsePacket buf).2 = some ProtoErr.invalidPacketSize)
    ∧ (spaceIndex4 + 2 ≤ buf.length → (ParsePacket buf).1.isSome)
    ∧ (buf.length < spaceIndex4 + 2 →
        ParsePacket buf = (none, some ProtoErr.invalidPacketSize))
    ∧ (buf.length = PacketSize →
        (IsRequestCmd (buf.getD 0 0) || IsResponseCmd (buf.getD 0 0)) = false →
        (ParsePacket buf).2 = some ProtoErr.invalidCommandByte)
    ∧ ((ParsePacket buf).2 = none →
        buf.length = PacketSize
        ∧ (IsRequestCmd (buf.getD 0 0) || IsResponseCmd (buf.getD 0 0)) = true
        ∧ buf.getD spaceIndex1 0 = spaceByte ∧ buf.getD spaceIndex2 0 = spaceByte
        ∧ buf.getD spaceIndex3 0 = spaceByte ∧ buf.getD spaceIndex4 0 = spaceByte) := by
  refine ⟨?_, ?_, ?_, ?_, ?_⟩
  · intro hne
    by_cases h82 : buf.length < spaceIndex4 + 2
    · simp [ParsePacket, h82]
    · simp [ParsePacket, h82, hne]
  · intro h82
    have h82' : ¬buf.length < spaceIndex4 + 2 := by omega
    by_cases hsz : buf.length ≠ PacketSize
    · simp [ParsePacket, h82', hsz]
    · simp only [ParsePacket, if_neg h82', hsz]
      split_ifs <;> simp
  · intro h82
    simp [ParsePacket, h82]
  · intro hsz hcmd
    have h82' : ¬buf.length < spaceIndex4 + 2 := by rw [hsz]; decide
    unfold ParsePacket
    rw [if_neg h82']
    split_ifs with h1 h2 h3 h4 h5 h6
    all_goals first
      | exact absurd hsz h1
      | rfl
      | (exfalso
         rw [hcmd] at h2
         exact Bool.false_ne_true h2)
  · intro hok
    unfold ParsePacket at hok
    by_cases h82 : buf.length < spaceIndex4 + 2
    · rw [if_pos h82] at hok
      exact absurd hok (by simp)
    · rw [if_neg h82] at hok
      split_ifs at hok with h1 h2 h3 h4 h5 h6
      exact ⟨by omega, h2, not_ne_iff.mp h3, not_ne_iff.mp h4, not_ne_iff.mp h5,
        not_ne_iff.mp h6⟩

/-- C5 witness: an all-spaces 100-byte buffer is rejected for size yet still
yields a partially populated packet. -/
theorem claim_C5_witness :
    ((ParsePacket (List.replicate 100 32)).2 = some ProtoErr.invalidPacketSize)
    ∧ (ParsePacket (List.replicate 100 32)).1.isSome :=
  ⟨(claim_C5 (List.replicate 100 32)).1 (by decide),
   (claim_C5 (List.replicate 100 32)).2.1 (by decide)⟩

/-- C3: signing a packet and verifying it with the same key always succeeds,
but verification does NOT reject every different key: because HashPacket
returns a fresh hasher's `Sum` of the concatenation (the hasher is never
written, so the result is key ++ id ++ namespace ++ data ++ digest-of-empty)
and only the first eight bytes feed the 64-bit comparison, any two preshared
keys agreeing on their first eight bytes validate each other's packets. -/
theorem claim_C3 :
    (∀ (p : Packet) (key : List Nat), (p.SetHash key).Validate key = none)
    ∧ asciiBytes "12345678A" ≠ asciiBytes "12345678B"
    ∧ (NewPacketFromParts CmdPut [1, 0, 0, 0] [110] [100]
        (asciiBytes "12345678A")).Validate (asciiBytes "12345678B") = none := by
  refine ⟨?_, by decide, by rfl⟩
  intro p key
  simp [Packet.SetHash, Packet.Validate, HashPacket]

/-- Field laws of the packet constructor. -/
theorem NewPacketFromParts_hash_length (command : Nat) (mid ns dv key : List Nat) :
    (NewPacketFromParts command mid ns dv key).hashBytes.length
      = key.length + mid.length + max NamespaceSize ns.length
        + max DataValueSize dv.length + 8 := by
  show (HashPacket _ _).length = _
  rw [HashPacket_length]
  show key.length + mid.length + (padRight ns NamespaceSize).length
      + (padRight dv DataValueSize).length + 8 = _
  rw [padRight_length, padRight_length]

/-- On any packet whose padded data value is close to (or beyond) the slot
size, respondOrLogErrorTCP writes the nil buffer: zero bytes. -/
theorem respondTCP_writes_nil (p : Packet) (h8 : 8 ≤ p.hashBytes.length)
    (h4 : 4 ≤ p.messageIDBytes.length) (hdv : 1417 ≤ p.dataValue.length) :
    respondOrLogErrorTCP p = some (some []) := by
  unfold respondOrLogErrorTCP Packet.Bytes Packet.bytesGo
  have hh8 : ¬({ p with dataValue := p.dataValue ++ StopSymbol }.hashBytes.length < 8
      ∨ { p with dataValue := p.dataValue ++ StopSymbol }.messageIDBytes.length < 4) := by
    show ¬(p.hashBytes.length < 8 ∨ p.messageIDBytes.length < 4)
    omega
  rw [if_neg hh8]
  have hlen : ({ p with dataValue := p.dataValue ++ StopSymbol } : Packet).bytesRaw.length
      ≠ PacketSize := by
    rw [bytesRaw_length _ (by show 8 ≤ p.hashBytes.length; omega)
      (by show 4 ≤ p.messageIDBytes.length; omega)]
    show 17 + max 64 p.nspace.length + max 1419 (p.dataValue ++ StopSymbol).length ≠ 1500
    have hsl : (p.dataValue ++ StopSymbol).length = p.dataValue.length + 3 := by
      simp [StopSymbol]
    rw [hsl]
    omega
  simp only [Option.map_some']
  rw [if_neg hlen]
  rfl

/-- C9: respondOrLogErrorTCP never writes the frame.  Appending the stop
symbol makes the padded data value at least 1422 bytes, so `Bytes()` returns
its nil buffer with ErrBadOutputSize; that error is special-cased past the
early return, and the nil buffer — zero bytes — is what gets written to the
connection.  So for every reply packet the server builds, the bytes written
are empty rather than the frame plus the stop symbol. -/
theorem claim_C9 (command : Nat) (messageID nspace dataValue preSharedKey : List Nat)
    (hid : 4 ≤ messageID.length) :
    respondOrLogErrorTCP (NewPacketFromParts command messageID nspace dataValue preSharedKey)
      = some (some []) := by
  apply respondTCP_writes_nil
  · rw [NewPacketFromParts_hash_length]
    omega
  · exact hid
  · show 1417 ≤ (padRight dataValue DataValueSize).length
    rw [padRight_length]
    show 1417 ≤ max 1419 dataValue.length
    omega

/-- C9 witness: the PUT acknowledgement reply writes zero bytes on TCP. -/
theorem claim_C9_witness :
    respondOrLogErrorTCP (NewPacketFromParts CmdPut [9, 0, 0, 0] (asciiBytes "default") [] [])
      = some (some []) :=
  claim_C9 CmdPut [9, 0, 0, 0] (asciiBytes "default") [] [] (by decide)

/-- C6: KeyMatch rewrites every `*` in the glob to the fragment `(^|$|.+)`,
hands the rewritten pattern to the regexp engine (`regexp.Compile`, external
to this repository, abstracted as the `compile` parameter), returns the
compile error message as the sole element on failure, and otherwise returns
exactly the keys that match the compiled pattern and have count > 0, in tree
order. -/
theorem claim_C6 (compile : String → Except String (String → Bool)) (n : Tree)
    (keyPattern : String) (now : Int) :
    (∀ msg, compile (keyPattern.replace "*" "(^|$|.+)") = .error msg →
        Tree.KeyMatch compile n keyPattern now = ([msg], n))
    ∧ (∀ re, compile (keyPattern.replace "*" "(^|$|.+)") = .ok re →
        (Tree.KeyMatch compile n keyPattern now).1
          = (n.tree.map Prod.fst).filter (fun k => re k && decide (0 < n.live k now))) := by
  constructor
  · intro msg h
    unfold Tree.KeyMatch goGlobToRegex
    rw [h]
  · intro re h
    unfold Tree.KeyMatch goGlobToRegex
    rw [h]
    exact matchFold_out now re _ n

/-- C6 witness: a failing engine's message comes back as the sole element; a
trivially accepting engine returns exactly the keys with live entries. -/
theorem claim_C6_witness :
    (Tree.KeyMatch compileNone ⟨2, [("blah", [5])]⟩ "blah*" 0
      = (["compile error"], ⟨2, [("blah", [5])]⟩))
    ∧ ((Tree.KeyMatch compileAll ⟨2, [("blah", [5]), ("dead", [0])]⟩ "blah*" 0).1
      = ["blah"]) := by
  constructor
  · exact (claim_C6 compileNone ⟨2, [("blah", [5])]⟩ "blah*" 0).1 "compile error" rfl
  · rw [(claim_C6 compileAll ⟨2, [("blah", [5]), ("dead", [0])]⟩ "blah*" 0).2
      (fun _ => true) rfl]
    rfl

/-- C7: one cleanup run touches only the first ⌊N/D⌋ namespaces of the
snapshot (D = maxNamespacesDenom = 2 in this version), does nothing when that
target is below 1, removes a selected namespace only when the sweep found no
valid key — i.e. the namespace held no unexpired entry — and never changes the
observable live count of any (namespace, entry key) pair at the run's time. -/
theorem claim_C7 (s : Store) (now : Int) :
    ((s.namespaces.map Prod.fst).length / maxNamespacesDenom = 0 →
        s.runCleanup now = s)
    ∧ (∀ ns, ns ∉ (s.namespaces.map Prod.fst).take
          ((s.namespaces.map Prod.fst).length / maxNamespacesDenom) →
        assocGet (s.runCleanup now).namespaces ns = assocGet s.namespaces ns)
    ∧ (∀ ns, assocGet s.namespaces ns ≠ none →
        assocGet (s.runCleanup now).namespaces ns = none →
        ∀ k, s.live ns k now = 0)
    ∧ (∀ ns k, (s.runCleanup now).live ns k now = s.live ns k now) := by
  unfold Store.runCleanup
  by_cases hen : s.cleanupServiceEnabled
  · rw [if_neg (not_not_intro hen)]
    refine ⟨?_, ?_, ?_, ?_⟩
    · intro h0
      rw [h0]
      simp [cleanupFold]
    · intro ns hns
      exact cleanupFold_frame now _ s ns hns
    · intro ns h1 h2
      exact cleanupFold_removed_dead now _ s ns h2 h1
    · intro ns k
      exact cleanupFold_live now _ s ns k
  · rw [if_pos hen]
    exact ⟨fun _ => rfl, fun ns _ => rfl, fun ns h1 h2 => (h1 h2).elim, fun ns k => rfl⟩

/-- C7 witness: with one namespace the target is 0 and nothing happens; with
two namespaces holding only expired entries, the first is removed and indeed
held no live entry. -/
theorem claim_C7_witness :
    (Store.runCleanup ⟨2, [], true⟩ 10 = ⟨2, [], true⟩)
    ∧ (Store.live ⟨2, [("a", ⟨2, [("k", [3])]⟩), ("b", ⟨2, [("k", [3])]⟩)], true⟩
        "a" "k" 10 = 0) := by
  constructor
  · exact (claim_C7 ⟨2, [], true⟩ 10).1 (by decide)
  · exact (claim_C7 ⟨2, [("a", ⟨2, [("k", [3])]⟩), ("b", ⟨2, [("k", [3])]⟩)], true⟩ 10).2.2.1
      "a" (by decide) (by decide) "k"

/-- Applying put operations preserves the uniform TTL and any upper bound on
the stored expiry dates of a pair, provided every put of that pair happens
early enough. -/
theorem applyPuts_inv (ttl : Int) (ns k : String) (B : Int)
    (ops : List (String × String × Int))
    (hops : ∀ op ∈ ops, op.1 = ns → op.2.1 = k → op.2.2 + ttl ≤ B) :
    ∀ s : Store, s.uniformTTL ttl → (∀ d ∈ s.dates ns k, d ≤ B) →
      (applyPuts s ops).uniformTTL ttl ∧ ∀ d ∈ (applyPuts s ops).dates ns k, d ≤ B := by
  induction ops with
  | nil => exact fun s h1 h2 => ⟨h1, h2⟩
  | cons op rest ih =>
    intro s h1 h2
    have hrest : ∀ op' ∈ rest, op'.1 = ns → op'.2.1 = k → op'.2.2 + ttl ≤ B :=
      fun op' hm => hops op' (List.mem_cons_of_mem _ hm)
    show (applyPuts (s.Put op.1 op.2.1 op.2.2) rest).uniformTTL ttl ∧ _
    apply ih hrest
    · exact Store.Put_uniformTTL s op.1 op.2.1 op.2.2 ttl h1
    · by_cases hsame : op.1 = ns ∧ op.2.1 = k
      · obtain ⟨e1, e2⟩ := hsame
        intro d hd
        rw [e1, e2, Store.Put_dates_self s ns k op.2.2 ttl h1] at hd
        rcases List.mem_append.mp hd with hd | hd
        · rw [removeExpired_eq_filter] at hd
          exact h2 d (List.mem_of_mem_filter hd)
        · have hdd : d = op.2.2 + ttl := by simpa using hd
          rw [hdd]
          exact hops op (List.mem_cons_self _ _) e1 e2
      · intro d hd
        rw [Store.Put_dates_ne s op.1 op.2.1 op.2.2 ns k
          (fun hc => hsame ⟨hc.1.symm, hc.2.symm⟩)] at hd
        exact h2 d hd

/-- C1: with a positive TTL, a put followed immediately by a count of the same
pair yields at least 1; a single occurrence put at time t is counted iff
t + TTL is strictly greater than the clock; and on any store built from puts,
a count performed more than TTL seconds after the last put of the pair is 0. -/
theorem claim_C1 (ttl : Int) (ns k : String) (httl : 0 < ttl) :
    (∀ (s : Store) (now : Int), s.uniformTTL ttl →
        1 ≤ (Store.Count (s.Put ns k now) ns k now).1)
    ∧ (∀ t now : Int,
        (Store.Count (Store.Put (NewStore ttl) ns k t) ns k now).1
          = if now < t + ttl then 1 else 0)
    ∧ (∀ (ops : List (String × String × Int)) (T now : Int),
        (∀ op ∈ ops, op.1 = ns → op.2.1 = k → op.2.2 ≤ T) →
        T + ttl < now →
        (Store.Count (applyPuts (NewStore ttl) ops) ns k now).1 = 0) := by
  have hnewuni : (NewStore ttl).uniformTTL ttl := ⟨rfl, by intro e he; simp [NewStore] at he⟩
  refine ⟨?_, ?_, ?_⟩
  · intro s now huni
    rw [Store.Count_value, Store.live_eq_dates, Store.Put_dates_self s ns k now ttl huni,
      liveList_append]
    have h1 : liveList [now + ttl] now = 1 := by
      have hft : List.filter (fun d => decide (now < d)) [now + ttl] = [now + ttl] := by
        simp
        omega
      unfold liveList
      rw [hft]
      rfl
    omega
  · intro t now
    rw [Store.Count_value, Store.live_eq_dates, Store.Put_dates_self _ ns k t ttl hnewuni]
    have hd : (NewStore ttl).dates ns k = [] := rfl
    rw [hd]
    show liveList (removeExpired [] t ++ [t + ttl]) now = _
    by_cases h : now < t + ttl <;> simp [removeExpired, liveList, h]
  · intro ops T now hops hlate
    have hinv := applyPuts_inv ttl ns k (T + ttl) ops
      (fun op hm e1 e2 => by have := hops op hm e1 e2; omega)
      (NewStore ttl) hnewuni (by intro d hd; simp [Store.dates, NewStore, assocGet] at hd)
    rw [Store.Count_value, Store.live_eq_dates]
    unfold liveList
    rw [List.filter_eq_nil_iff.mpr ?_]
    · rfl
    · intro d hd
      have := hinv.2 d hd
      simp only [decide_eq_true_eq]
      omega

/-- C1 witness: with TTL 2, put-then-count of ("n","e") at second 0 counts at
least 1, and a count 5 seconds after the only put returns 0. -/
theorem claim_C1_witness :
    (1 ≤ (Store.Count (Store.Put (NewStore 2) "n" "e" 0) "n" "e" 0).1)
    ∧ ((Store.Count (applyPuts (NewStore 2) [("n", "e", 0)]) "n" "e" 5).1 = 0) := by
  constructor
  · exact (claim_C1 2 "n" "e" (by decide)).1 (NewStore 2) 0
      ⟨rfl, by intro e he; simp [NewStore] at he⟩
  · exact (claim_C1 2 "n" "e" (by decide)).2.2 [("n", "e", 0)] 0 5
      (by intro op hm h1 h2; rw [List.mem_singleton] at hm; simp [hm])
      (by decide)

/-- C8: a PUT-REPLICATE frame that parses and authenticates is applied to the
store via put, with no reply and no fan-out to peers; the worker's republish
flag can only be raised by a plain PUT with peers configured, so a replicated
put is never rebroadcast. -/
theorem claim_C8 (compile : String → Except String (String → Bool))
    (encode : String → List Nat) (trim : List Nat → String) (psk : List Nat)
    (peersNonempty : Bool) (s : Store) (raw : List Nat) (now : Int) :
    (∀ p, ParsePacket raw = (some p, none) → p.Validate psk = none →
        p.command = CmdPutReplicate →
        workerHandle compile encode trim psk peersNonempty s raw now
          = (s.Put (trim p.nspace) (trim p.dataValue) now, none, false))
    ∧ ((workerHandle compile encode trim psk peersNonempty s raw now).2.2 = true →
        ∃ p, (ParsePacket raw).1 = some p ∧ p.command = CmdPut ∧ peersNonempty = true) := by
  constructor
  · intro p hp hv hc
    unfold workerHandle
    rw [hp]
    simp only [hv]
    unfold workerDispatch
    rw [if_pos hc]
  · intro hflag
    unfold workerHandle at hflag
    rcases hps : ParsePacket raw with ⟨mp, me⟩
    rw [hps] at hflag
    cases mp with
    | none => simp at hflag
    | some p =>
      cases me with
      | some e => simp at hflag
      | none =>
        cases hv : p.Validate psk with
        | some e => simp only [hv] at hflag; simp at hflag
        | none =>
          simp only [hv] at hflag
          unfold workerDispatch at hflag
          by_cases h1 : p.command = CmdPutReplicate
          · rw [if_pos h1] at hflag
            simp at hflag
          · rw [if_neg h1] at hflag
            by_cases h2 : p.command = CmdPut
            · rw [if_pos h2] at hflag
              simp only [] at hflag
              refine ⟨p, by simp [hps], h2, ?_⟩
              simpa using hflag
            · rw [if_neg h2] at hflag
              by_cases h3 : p.command = CmdCount
              · rw [if_pos h3] at hflag; simp at hflag
              · rw [if_neg h3] at hflag
                by_cases h4 : p.command = CmdCountNamespace
                · rw [if_pos h4] at hflag; simp at hflag
                · rw [if_neg h4] at hflag
                  by_cases h5 : p.command = CmdCountServer
                  · rw [if_pos h5] at hflag; simp at hflag
                  · rw [if_neg h5] at hflag
                    by_cases h6 : p.command = CmdTCPOnlyKeys
                    · rw [if_pos h6] at hflag; simp at hflag
                    · rw [if_neg h6] at hflag; simp at hflag

/-- Parsing a well-formed 1500-byte frame assembled from a command byte, 8
hash bytes, 4 message id bytes, a 64-byte namespace and a 1419-byte data value
recovers exactly those parts, with no error, provided the command byte is
recognised. -/
theorem parse_frame (cmd : Nat) (A M NS DV : List Nat)
    (hA : A.length = 8) (hM : M.length = 4) (hNS : NS.length = 64)
    (hDV : DV.length = 1419)
    (hcmd : (IsRequestCmd cmd || IsResponseCmd cmd) = true) :
    ∀ b, b = cmd :: spaceByte ::
        (A ++ spaceByte :: (M ++ spaceByte :: (NS ++ spaceByte :: DV))) →
      ParsePacket b
        = (some { command := cmd, hashBytes := A, hash := Uint64FromBytes A,
                  messageIDBytes := M, messageID := Uint32FromBytes M,
                  nspace := NS, dataValue := DV }, none) := by
  intro b hb
  have hlen : b.length = 1500 := by
    rw [hb]
    simp [hA, hM, hNS, hDV]
  have e2 : b = [cmd, spaceByte]
      ++ (A ++ spaceByte :: (M ++ spaceByte :: (NS ++ spaceByte :: DV))) := by
    rw [hb]; rfl
  have e10 : b = ([cmd, spaceByte] ++ A)
      ++ (spaceByte :: (M ++ spaceByte :: (NS ++ spaceByte :: DV))) := by
    rw [hb]; simp
  have e11 : b = (([cmd, spaceByte] ++ A) ++ [spaceByte])
      ++ (M ++ spaceByte :: (NS ++ spaceByte :: DV)) := by
    rw [hb]; simp
  have e15 : b = (([cmd, spaceByte] ++ A) ++ spaceByte :: M)
      ++ (spaceByte :: (NS ++ spaceByte :: DV)) := by
    rw [hb]; simp
  have e16 : b = ((([cmd, spaceByte] ++ A) ++ spaceByte :: M) ++ [spaceByte])
      ++ (NS ++ spaceByte :: DV) := by
    rw [hb]; simp
  have e80 : b = (((([cmd, spaceByte] ++ A) ++ spaceByte :: M) ++ [spaceByte]) ++ NS)
      ++ (spaceByte :: DV) := by
    rw [hb]; simp
  have e81 : b = ((((([cmd, spaceByte] ++ A) ++ spaceByte :: M) ++ [spaceByte]) ++ NS)
      ++ [spaceByte]) ++ DV := by
    rw [hb]; simp
  have hg0 : b.getD 0 0 = cmd := by rw [hb]; rfl
  have hg1 : b.getD spaceIndex1 0 = spaceByte := by rw [hb]; rfl
  have hg10 : b.getD spaceIndex2 0 = spaceByte := by
    rw [e10, getD_append_right _ _ _ _ (by simp [hA, spaceIndex2])]
    simp [hA, spaceIndex2]
  have hg15 : b.getD spaceIndex3 0 = spaceByte := by
    rw [e15, getD_append_right _ _ _ _ (by simp [hA, hM, spaceIndex3])]
    simp [hA, hM, spaceIndex3]
  have hg80 : b.getD spaceIndex4 0 = spaceByte := by
    rw [e80, getD_append_right _ _ _ _ (by simp [hA, hM, hNS, spaceIndex4])]
    simp [hA, hM, hNS, spaceIndex4]
  have hS1 : listSlice b (spaceIndex1 + 1) spaceIndex2 = A := by
    show (b.drop 2).take 8 = A
    rw [e2, drop_append_len (by simp), take_append_len hA]
  have hS2 : listSlice b (spaceIndex2 + 1) spaceIndex3 = M := by
    show (b.drop 11).take 4 = M
    rw [e11, drop_append_len (by simp [hA]), take_append_len hM]
  have hS3 : listSlice b (spaceIndex3 + 1) spaceIndex4 = NS := by
    show (b.drop 16).take 64 = NS
    rw [e16, drop_append_len (by simp [hA, hM]), take_append_len hNS]
  have hS4 : listSlice b (spaceIndex4 + 1) (min b.length PacketSize) = DV := by
    rw [hlen]
    show (b.drop 81).take (min 1500 1500 - 81) = DV
    rw [e81, drop_append_len (by simp [hA, hM, hNS])]
    show DV.take 1419 = DV
    rw [show (1419 : Nat) = DV.length from hDV.symm, List.take_length]
  have hpp : parsedPacket b
      = { command := cmd, hashBytes := A, hash := Uint64FromBytes A,
          messageIDBytes := M, messageID := Uint32FromBytes M,
          nspace := NS, dataValue := DV } := by
    unfold parsedPacket
    rw [hS1, hS2, hS3, hS4, hg0]
    have hpad : padRight DV DataValueSize = DV := by
      unfold padRight
      rw [if_pos (by rw [hDV]; decide)]
    rw [hpad]
  have hv : (IsRequestCmd (b.getD 0 0) || IsResponseCmd (b.getD 0 0)) = true := by
    rw [hg0]; exact hcmd
  unfold ParsePacket
  rw [if_neg (by rw [hlen]; decide), if_neg (by rw [hlen]; decide),
    if_neg (not_not_intro hv), if_neg (not_ne_iff.mpr hg1), if_neg (not_ne_iff.mpr hg10),
    if_neg (not_ne_iff.mpr hg15), if_neg (not_ne_iff.mpr hg80), hpp]

/-- C2 (amended): for every packet that serialises successfully to a
1500-byte frame AND whose command byte the parser recognises, parsing the
frame returns no error and recovers the packet up to right-padding: the same
command byte, the first 8 hash bytes and the same 64-bit hash value, the
first 4 message id bytes and the same 32-bit message id, and the namespace
and data value right-padded with spaces to their slot sizes.  (A packet with
an unrecognised command byte — e.g. 'X', or even the TCP-only KEYS byte 'K' —
serialises fine but is rejected by the parser, so the original claim fails.) -/
theorem claim_C2 (p : Packet) (b : List Nat)
    (hser : Packet.Bytes p = some (some b, none))
    (hcmd : (IsRequestCmd p.command || IsResponseCmd p.command) = true) :
    ParsePacket b
      = (some { command := p.command
                hashBytes := p.hashBytes.take 8
                hash := Uint64FromBytes p.hashBytes
                messageIDBytes := p.messageIDBytes.take 4
                messageID := Uint32FromBytes p.messageIDBytes
                nspace := padRight p.nspace NamespaceSize
                dataValue := padRight p.dataValue DataValueSize }, none) := by
  unfold Packet.Bytes Packet.bytesGo at hser
  by_cases hpanic : p.hashBytes.length < 8 ∨ p.messageIDBytes.length < 4
  · rw [if_pos hpanic] at hser
    simp at hser
  · rw [if_neg hpanic] at hser
    push_neg at hpanic
    obtain ⟨h8, h4⟩ := hpanic
    simp only [Option.map_some'] at hser
    by_cases hL : p.bytesRaw.length = PacketSize
    · rw [if_pos hL] at hser
      have hbb : b = p.bytesRaw := by
        simpa using hser.symm
      have h17 : 17 + max 64 p.nspace.length + max 1419 p.dataValue.length = 1500 := by
        have := bytesRaw_length p h8 h4
        rw [hL] at this
        exact this.symm
      have hNS : (padRight p.nspace NamespaceSize).length = 64 := by
        rw [padRight_length]
        show max 64 p.nspace.length = 64
        omega
      have hDV : (padRight p.dataValue DataValueSize).length = 1419 := by
        rw [padRight_length]
        show max 1419 p.dataValue.length = 1419
        omega
      rw [hbb]
      rw [parse_frame p.command (p.hashBytes.take 8) (p.messageIDBytes.take 4)
        (padRight p.nspace NamespaceSize) (padRight p.dataValue DataValueSize)
        (by rw [List.length_take]; omega) (by rw [List.length_take]; omega) hNS hDV hcmd
        p.bytesRaw rfl]
      rw [Uint64FromBytes_take, Uint32FromBytes_take]
    · rw [if_neg hL] at hser
      simp at hser

set_option maxRecDepth 100000 in
/-- C2 counterexample: the packet with (unrecognised) command byte 88 ('X')
serialises successfully to a 1500-byte frame, yet parsing that frame returns
the invalid-command error instead of no error. -/
theorem claim_C2_counterexample :
    Packet.Bytes c2BadPacket = some (some c2BadFrame, none)
    ∧ c2BadFrame.length = 1500
    ∧ (ParsePacket c2BadFrame).2 = some ProtoErr.invalidCommandByte :=
  ⟨rfl, rfl, rfl⟩

set_option maxRecDepth 100000 in
/-- C2 witness: a COUNT packet round-trips through serialisation and parsing
up to right-padding. -/
theorem claim_C2_witness :
    ParsePacket c2GoodFrame
      = (some { command := c2GoodPacket.command
                hashBytes := c2GoodPacket.hashBytes.take 8
                hash := Uint64FromBytes c2GoodPacket.hashBytes
                messageIDBytes := c2GoodPacket.messageIDBytes.take 4
                messageID := Uint32FromBytes c2GoodPacket.messageIDBytes
                nspace := padRight c2GoodPacket.nspace NamespaceSize
                dataValue := padRight c2GoodPacket.dataValue DataValueSize }, none) :=
  claim_C2 c2GoodPacket c2GoodFrame (by rfl) (by rfl)

set_option maxRecDepth 100000 in
/-- C8 witness: a concrete signed PUT-REPLICATE frame is applied to a fresh
store with no reply and no republication. -/
theorem claim_C8_witness :
    workerHandle compileAll asciiBytes goTrimSpaceAscii [] true (NewStore 60) c8Raw 5
      = ((NewStore 60).Put (goTrimSpaceAscii c8Packet.nspace)
          (goTrimSpaceAscii c8Packet.dataValue) 5, none, false) :=
  (claim_C8 compileAll asciiBytes goTrimSpaceAscii [] true (NewStore 60) c8Raw 5).1
    c8Packet (by rfl) (by rfl) (by rfl)

end Dracula
